import Mathlib

/-!
Shallow embedding of `src/flan_pubmed_src/pretrain.py`, the InstructGLM
pretraining driver for the PubMed graph: the checkpoint schedule and naming
in `Trainer.train` and `Trainer.test`, the per-step loss computation and
epoch-result accumulation in `Trainer.train`, and the classification scoring
in `Trainer.evaluate_epoch`.  Python dicts are modelled as association lists
with first-match lookup, floats as rationals, and fallible dict indexing as
`Except` values carrying the offending key.
-/

namespace Pretrain

/-- First-match lookup in an association list; models Python dict indexing
for the small string-keyed dicts built by `pretrain.py`. -/
def findVal {α : Type} : List (String × α) → String → Option α
  | [], _ => none
  | kv :: rest, k => if kv.1 = k then some kv.2 else findVal rest k

/-- The keys of an association list, in order. -/
def keysOf {α : Type} (m : List (String × α)) : List String := m.map Prod.fst

/-- Pointwise update of every entry stored at key `k`, leaving other keys
alone; models updating a dict entry in place. -/
def adjustKey {α : Type} (m : List (String × α)) (k : String) (f : α → α) :
    List (String × α) :=
  m.map (fun kv => if kv.1 = k then (kv.1, f kv.2) else kv)

/-- ASCII lower-casing of one character, as Python `str.lower` acts on the
ASCII template and label strings used by `pretrain.py`. -/
def lowerChar (c : Char) : Char :=
  if 'A' ≤ c ∧ c ≤ 'Z' then Char.ofNat (c.toNat + 32) else c

/-- Python `s.lower()` on ASCII strings. -/
def pyLower (s : String) : String := ⟨s.data.map lowerChar⟩

/-- Python `s.endswith(c)` for a one-character suffix `c`. -/
def endsWithChar (s : String) (c : Char) : Bool := s.data.getLast? == some c

/-- One decoded validation example as `Trainer.evaluate_epoch` sees it: the
fields read from the batch at one index plus the decoded prediction at the
same index. -/
structure EvalEx where
  task : String
  temp_id : String
  cate : String
  target_text : String
  predicted : String

/-- Python `ACC[key] += 1` (line 383 of `pretrain.py`): increments the counter
when the key is present and raises `KeyError` (modelled as `Except.error`
carrying the key) otherwise. -/
def bumpKey (acc : List (String × Nat)) (k : String) :
    Except String (List (String × Nat)) :=
  match findVal acc k with
  | some _ => Except.ok (adjustKey acc k (· + 1))
  | none => Except.error k

/-- The template-id test of line 381: `temp_id` ends with the digit 2, 4, 6,
or 7. -/
def suffixOk (t : String) : Bool :=
  endsWithChar t '2' || endsWithChar t '4' || endsWithChar t '6' ||
    endsWithChar t '7'

/-- Scoring of one example, `Trainer.evaluate_epoch` lines 376-383:
classification examples whose template id ends in 2, 4, 6, or 7 compare the
lower-cased decoded prediction against the raw target text, and on a match
bump the counter keyed `temp_id ++ "-" ++ cate`. -/
def scoreExample (acc : List (String × Nat)) (ex : EvalEx) :
    Except String (List (String × Nat)) :=
  if ex.task = "classification" then
    if suffixOk ex.temp_id then
      if pyLower ex.predicted = ex.target_text then
        bumpKey acc (ex.temp_id ++ "-" ++ ex.cate)
      else Except.ok acc
    else Except.ok acc
  else Except.ok acc

/-- One scoring pass over the decoded examples; a `KeyError` aborts the pass
(`Trainer.evaluate_epoch` installs no handler around line 383). -/
def scorePass (acc : List (String × Nat)) :
    List EvalEx → Except String (List (String × Nat))
  | [] => Except.ok acc
  | ex :: rest =>
    match scoreExample acc ex with
    | Except.ok acc2 => scorePass acc2 rest
    | Except.error k => Except.error k

/-- Counter initialisation of `Trainer.evaluate_epoch` lines 360-369: for the
key `classification` of the task list, and only when the training split is
`PubMed`, one zero counter per flattened template id, keyed
`<template>-transductive`. -/
def initACC (val_list : List (String × List (List String))) (split : String) :
    List (String × Nat) :=
  val_list.flatMap (fun kv =>
    if kv.1 = "classification" then
      if split = "PubMed" then
        kv.2.flatten.map (fun t => (t ++ "-" ++ "transductive", 0))
      else []
    else [])

/-- The seven mid-epoch save points of `Trainer.train` lines 210-232, listed
in source order: the value of `global_step` (1-based, incremented before the
tests) at which each tagged save fires, using integer floor division on the
epoch length. -/
def schedulePairs (total : Nat) : List (Nat × String) :=
  [(total / 2, "mid2"), (total / 4, "mid1"), (3 * total / 4, "mid3"),
   (total / 8, "mmid1"), (3 * total / 8, "mmid2"), (5 * total / 8, "mmid3"),
   (7 * total / 8, "mend")]

/-- Tags of the checkpoints written at step `s` of an epoch of `total` steps;
each of the seven `if global_step == ...` tests fires independently, so
several tags can fire at the same step. -/
def midTags (s total : Nat) : List String :=
  (schedulePairs total).filterMap (fun p => if s = p.1 then some p.2 else none)

/-- Whether any checkpoint is written at step `s`: one of the seven mid-epoch
saves, or the unconditional end-of-epoch save of line 296, attributed to the
final step `total`. -/
def saveDue (s total : Nat) : Bool := !(midTags s total).isEmpty || s == total

/-- The step fractions of the spec's `CheckpointScheduler`, in increasing
order of fraction, floored on the epoch length. -/
def fracSteps (total : Nat) : List Nat :=
  [total / 8, total / 4, 3 * total / 8, total / 2, 5 * total / 8,
   3 * total / 4, 7 * total / 8]

/-- Checkpoint filename loaded by slot `i` (0-based) of `Trainer.test`, lines
303-316: the phase tag is selected by `(i+1) % 4` and the checkpoint epoch is
`i / 4 + 1`. -/
def testCkptPath (lr train : String) (i : Nat) : String :=
  if (i + 1) % 4 = 1 then
    "flan_pubmed_" ++ toString (i / 4 + 1) ++ "_" ++ lr ++ "_8_" ++ train ++
      "_mid1.pth"
  else if (i + 1) % 4 = 2 then
    "flan_pubmed_" ++ toString (i / 4 + 1) ++ "_" ++ lr ++ "_8_" ++ train ++
      "_mid2.pth"
  else if (i + 1) % 4 = 3 then
    "flan_pubmed_" ++ toString (i / 4 + 1) ++ "_" ++ lr ++ "_8_" ++ train ++
      "_mid3.pth"
  else
    "flan_pubmed_" ++ toString (i / 4 + 1) ++ "_" ++ lr ++ "_8_" ++ train ++
      "_end.pth"

/-- Modelled from the spec: `load_checkpoint` is defined in `trainer_base.py`,
which is not part of this repository snapshot; per the spec, a missing
checkpoint file at evaluation time is a fatal error for the run, not skipped.
`available` is the set of checkpoint files present on disk. -/
def load_checkpoint (available : List String) (path : String) :
    Except String Unit :=
  if available.contains path then Except.ok () else Except.error path

/-- The sequence of checkpoint loads attempted by `Trainer.test`, in order;
the first missing file aborts the run. -/
def runSlots (available : List String) : List String → Except String Unit
  | [] => Except.ok ()
  | p :: ps =>
    match load_checkpoint available p with
    | Except.ok _ => runSlots available ps
    | Except.error e => Except.error e

/-- The checkpoint filenames visited by `Trainer.test`, in slot order:
`4 * epoch_count` slots. -/
def testSlotPaths (E : Nat) (lr train : String) : List String :=
  (List.range (4 * E)).map (testCkptPath lr train)

/-- The whole load sequence of `Trainer.test` against a set of files present
on disk. -/
def testRun (E : Nat) (lr train : String) (available : List String) :
    Except String Unit :=
  runSlots available (testSlotPaths E lr train)

/-- Observable control decisions of one training step. -/
structure StepTrace where
  backwardLoss : ℚ
  clipped : Bool
  optimStepped : Bool
  schedStepped : Bool
  gradsZeroed : Bool

/-- Control decisions of one training step, `Trainer.train` lines 174-208
(the non-fp16 path): the scalar loss is divided by
`gradient_accumulation_steps` before `backward`, and on steps whose 0-based
index `i` satisfies `i % g = 0` the gradient norm is clipped when
`clip_grad_norm > 0`, the optimizer steps, the scheduler steps when present,
and every parameter gradient is zeroed; nothing of the sort happens on other
steps. -/
def trainStepControl (g : Nat) (clip : ℚ) (hasSched : Bool) (i : Nat)
    (scalarLoss : ℚ) : StepTrace :=
  if i % g = 0 then
    { backwardLoss := scalarLoss / (g : ℚ)
      clipped := decide (0 < clip)
      optimStepped := true
      schedStepped := hasSched
      gradsZeroed := true }
  else
    { backwardLoss := scalarLoss / (g : ℚ)
      clipped := false
      optimStepped := false
      schedStepped := false
      gradsZeroed := false }

/-- Per-position label mask of lines 147-148: 1 where the label differs from
-100, else 0, as a rational (the float cast of the boolean mask). -/
def lmMask (labels : List Int) : List ℚ :=
  labels.map (fun t => if t = -100 then 0 else 1)

/-- Per-example loss of lines 150-154: positionwise product of the loss row
with the mask, summed, divided by the mask sum clamped below at 1. -/
def perExampleLoss (losses : List ℚ) (labels : List Int) : ℚ :=
  ((losses.zip (lmMask labels)).map (fun p => p.1 * p.2)).sum /
    max (lmMask labels).sum 1

/-- The spec's description of the same quantity: the mean of the losses at
positions whose label differs from -100, with the divisor floored at 1. -/
def perExampleLossSpec (losses : List ℚ) (labels : List Int) : ℚ :=
  ((((losses.zip labels).filter (fun p => p.2 != -100)).map Prod.fst).sum) /
    max ((((losses.zip labels).filter (fun p => p.2 != -100)).length : ℚ)) 1

/-- One training example as the loss bookkeeping of lines 156-172 sees it:
task tag, detached per-example loss, and loss weight. -/
structure Ex where
  task : String
  l : ℚ
  w : ℚ

/-- The loop of lines 162-167 specialised to one task `t`: running unweighted
loss sum and example count over the batch.  Python walks the zipped batch
once, updating per-task dict entries; examples of other tasks leave the
entries of `t` untouched.  A task tag outside the configured list would raise
`KeyError` in Python, so this models batches whose tags lie inside the
configured list. -/
def tallyTask (batch : List Ex) (t : String) : ℚ × Nat :=
  batch.foldl (fun acc e => if e.task = t then (acc.1 + e.l, acc.2 + 1) else acc)
    (0, 0)

/-- Values held by the per-step `results` dict: Python ints, scalar tensors,
and plain floats; the merge at lines 244-249 treats the three differently. -/
inductive PyVal : Type where
  | int : Int → PyVal
  | tensor : ℚ → PyVal
  | float : ℚ → PyVal

/-- The per-step `results` dict of lines 156-172, in insertion order: the
weighted scalar `loss` (batch mean of per-example loss times loss weight),
the unweighted `total_loss` sum and its count, and, per configured task with
at least one example in the batch, that task's unweighted loss sum and
count. -/
def stepResults (tasks : List String) (batch : List Ex) :
    List (String × PyVal) :=
  ("loss", PyVal.tensor ((batch.map (fun e => e.l * e.w)).sum /
    (batch.length : ℚ))) ::
  ("total_loss", PyVal.tensor (batch.map (fun e => e.l)).sum) ::
  ("total_loss_count", PyVal.int (batch.length : Int)) ::
  tasks.flatMap (fun t =>
    if 0 < (tallyTask batch t).2 then
      [(t ++ "_loss", PyVal.tensor (tallyTask batch t).1),
       (t ++ "_loss_count", PyVal.int ((tallyTask batch t).2 : Int))]
    else [])

/-- Epoch-result initialisation of lines 117-120: a zero value entry and a
zero count entry per configured loss name. -/
def initEpochResults (lossNames : List String) : List (String × ℚ) :=
  lossNames.flatMap (fun n => [(n, 0), (n ++ "_count", 0)])

/-- In-place addition into the entry at key `k`. -/
def addAt (m : List (String × ℚ)) (k : String) (d : ℚ) : List (String × ℚ) :=
  adjustKey m k (· + d)

/-- Which step-result values the merge adds: Python ints directly, tensors
via `.item()`, anything else (plain floats) not at all. -/
def valToAdd : PyVal → Option ℚ
  | PyVal.int v => some (v : ℚ)
  | PyVal.tensor v => some v
  | PyVal.float _ => none

/-- The merge of lines 244-249: each step-result entry whose key already
exists in `epoch_results` is added into it when its value is an int or a
tensor; every other entry is dropped. -/
def mergeStep (er : List (String × ℚ)) (res : List (String × PyVal)) :
    List (String × ℚ) :=
  res.foldl (fun acc kv =>
    match findVal acc kv.1 with
    | some _ =>
      match valToAdd kv.2 with
      | some d => addAt acc kv.1 d
      | none => acc
    | none => acc) er

/-- One epoch of accumulation: the initialisation of lines 117-120 followed by
the merge of lines 244-249 once per step. -/
def runEpoch (lossNames tasks : List String) (batches : List (List Ex)) :
    List (String × ℚ) :=
  batches.foldl (fun er b => mergeStep er (stepResults tasks b))
    (initEpochResults lossNames)

/-- Python `name[-4:]`: the last four characters of a string (the whole
string when shorter). -/
def last4 (s : String) : List Char := (s.data.reverse.take 4).reverse

/-- Python `int(q)` on a rational: truncation toward zero. -/
def pyInt (q : ℚ) : Int := Int.tdiv q.num (q.den : Int)

/-- The per-metric report of lines 283-288: one average per entry whose key
ends in `loss` and whose `_count` entry is positive after `int`
conversion. -/
def reportedAverages (res : List (String × ℚ)) : List (String × ℚ) :=
  res.filterMap (fun kv =>
    if last4 kv.1 = "loss".data then
      match findVal res (kv.1 ++ "_count") with
      | some c => if 0 < pyInt c then some (kv.1, kv.2 / ((pyInt c : Int) : ℚ))
        else none
      | none => none
    else none)

/-! Helper lemmas. -/

theorem data_app (s t : String) : (s ++ t).data = s.data ++ t.data := rfl

theorem findVal_adjustKey {α : Type} (m : List (String × α)) (k : String)
    (f : α → α) (k' : String) :
    findVal (adjustKey m k f) k' =
      if k' = k then (findVal m k').map f else findVal m k' := by
  induction m with
  | nil => by_cases h : k' = k <;> simp [adjustKey, findVal, h]
  | cons kv rest ih =>
    by_cases h1 : kv.1 = k <;> by_cases h2 : kv.1 = k' <;>
      by_cases h3 : k' = k <;> simp_all [adjustKey, findVal]

theorem keysOf_adjustKey {α : Type} (m : List (String × α)) (k : String)
    (f : α → α) : keysOf (adjustKey m k f) = keysOf m := by
  induction m with
  | nil => rfl
  | cons kv rest ih => by_cases h : kv.1 = k <;> simp_all [adjustKey, keysOf]

theorem findVal_some_mem {α : Type} {m : List (String × α)} {k : String}
    {v : α} (h : findVal m k = some v) : (k, v) ∈ m := by
  induction m with
  | nil => simp [findVal] at h
  | cons kv rest ih =>
    by_cases h1 : kv.1 = k
    · rw [findVal, if_pos h1] at h
      injection h with h2
      rw [List.mem_cons]
      left
      rw [← h1, ← h2]
    · rw [findVal, if_neg h1] at h
      exact List.mem_cons_of_mem _ (ih h)

theorem mem_midTags (t : String) (s total : Nat) :
    t ∈ midTags s total ↔
      (s = total / 2 ∧ t = "mid2") ∨ (s = total / 4 ∧ t = "mid1") ∨
      (s = 3 * total / 4 ∧ t = "mid3") ∨ (s = total / 8 ∧ t = "mmid1") ∨
      (s = 3 * total / 8 ∧ t = "mmid2") ∨ (s = 5 * total / 8 ∧ t = "mmid3") ∨
      (s = 7 * total / 8 ∧ t = "mend") := by
  simp [midTags, schedulePairs, List.mem_filterMap,
    Option.ite_none_right_eq_some, eq_comm]

/-! Claim C1. -/

/-- C1 counterexample: the claim asserts the comparison is case-insensitive,
so that predicted text `yes` against raw target text `Yes` scores a match and
increments the counter; in the code only the predicted text is lower-cased
(line 382), so this example does not match and no counter changes. -/
theorem C1_counterexample :
    scoreExample [("6-6-6-7-transductive", 0)]
      { task := "classification", temp_id := "6-6-6-7", cate := "transductive",
        target_text := "Yes", predicted := "yes" } =
      Except.ok [("6-6-6-7-transductive", 0)] ∧
    scoreExample [("6-6-6-7-transductive", 0)]
      { task := "classification", temp_id := "6-6-6-7", cate := "transductive",
        target_text := "Yes", predicted := "yes" } ≠
      Except.ok [("6-6-6-7-transductive", 1)] := by
  have h : scoreExample [("6-6-6-7-transductive", 0)]
      { task := "classification", temp_id := "6-6-6-7", cate := "transductive",
        target_text := "Yes", predicted := "yes" } =
      Except.ok [("6-6-6-7-transductive", 0)] := rfl
  refine ⟨h, ?_⟩
  rw [h]
  intro hcontra
  have h2 : ([("6-6-6-7-transductive", 0)] : List (String × Nat)) =
      [("6-6-6-7-transductive", 1)] := by injection hcontra
  exact absurd h2 (by decide)

/-- C1 (amended): for a classification example whose template id ends in 2,
4, 6, or 7, the lower-cased predicted text is compared to the example's raw
target text (the target is not lower-cased); on a match, the counter keyed
`<template-id>-<category>` is incremented by exactly 1 and all other counters
are unchanged; an example whose template id does not end in 2, 4, 6, or 7
never touches any counter, even when the texts are equal.  In particular
predicted `Yes` against target `yes` matches, while predicted `yes` against
target `Yes` does not. -/
theorem C1_scoring (acc : List (String × Nat)) (ex : EvalEx)
    (htask : ex.task = "classification") :
    (suffixOk ex.temp_id = true → pyLower ex.predicted = ex.target_text →
      ∀ w, findVal acc (ex.temp_id ++ "-" ++ ex.cate) = some w →
        ∃ acc2, scoreExample acc ex = Except.ok acc2 ∧
          findVal acc2 (ex.temp_id ++ "-" ++ ex.cate) = some (w + 1) ∧
          ∀ k, k ≠ ex.temp_id ++ "-" ++ ex.cate →
            findVal acc2 k = findVal acc k) ∧
    (suffixOk ex.temp_id = false → scoreExample acc ex = Except.ok acc) ∧
    (suffixOk ex.temp_id = true → pyLower ex.predicted ≠ ex.target_text →
      scoreExample acc ex = Except.ok acc) := by
  refine ⟨?_, ?_, ?_⟩
  · intro hsuf hmatch w hw
    refine ⟨adjustKey acc (ex.temp_id ++ "-" ++ ex.cate) (· + 1), ?_, ?_, ?_⟩
    · simp [scoreExample, htask, hsuf, hmatch, bumpKey, hw]
    · simp [findVal_adjustKey, hw]
    · intro k hk
      simp [findVal_adjustKey, hk]
  · intro hsuf
    simp [scoreExample, htask, hsuf]
  · intro hsuf hne
    simp [scoreExample, htask, hsuf, hne]

/-- C1 witness: a concrete match (predicted `Yes`, target `yes`) increments
the counter from 2 to 3 and leaves the other counter alone. -/
theorem C1_witness :
    ∃ acc2, scoreExample [("2-3-1-2-transductive", 5), ("6-6-6-7-transductive", 2)]
      { task := "classification", temp_id := "6-6-6-7", cate := "transductive",
        target_text := "yes", predicted := "Yes" } = Except.ok acc2 ∧
      findVal acc2 "6-6-6-7-transductive" = some 3 ∧
      ∀ k, k ≠ "6-6-6-7-transductive" →
        findVal acc2 k =
          findVal [("2-3-1-2-transductive", 5), ("6-6-6-7-transductive", 2)] k := by
  have h := (C1_scoring
    [("2-3-1-2-transductive", 5), ("6-6-6-7-transductive", 2)]
    { task := "classification", temp_id := "6-6-6-7", cate := "transductive",
      target_text := "yes", predicted := "Yes" } rfl).1
    (by decide) (by decide) 2 (by decide)
  exact h

/-! Claim C2. -/

/-- C2 counterexample: with `total = 8` the save at `floor(total/4) = 2` is
written under the tag `mid1`, not `mmid2` as the claim's increasing-order
labelling asserts. -/
theorem C2_counterexample :
    (2 = 8 / 4) ∧ midTags 2 8 = ["mid1"] ∧ ¬ ("mmid2" ∈ midTags 2 8) := by
  decide

/-- C2 (amended): the seven phase tags are assigned to the step fractions
interleaved, not in increasing order of fraction: `mmid1` fires at
`floor(total/8)`, `mid1` at `floor(total/4)`, `mmid2` at `floor(3*total/8)`,
`mid2` at `floor(total/2)`, `mmid3` at `floor(5*total/8)`, `mid3` at
`floor(3*total/4)`, and `mend` at `floor(7*total/8)`. -/
theorem C2_tagAssignment (s total : Nat) :
    ("mmid1" ∈ midTags s total ↔ s = total / 8) ∧
    ("mid1" ∈ midTags s total ↔ s = total / 4) ∧
    ("mmid2" ∈ midTags s total ↔ s = 3 * total / 8) ∧
    ("mid2" ∈ midTags s total ↔ s = total / 2) ∧
    ("mmid3" ∈ midTags s total ↔ s = 5 * total / 8) ∧
    ("mid3" ∈ midTags s total ↔ s = 3 * total / 4) ∧
    ("mend" ∈ midTags s total ↔ s = 7 * total / 8) := by
  refine ⟨?_, ?_, ?_, ?_, ?_, ?_, ?_⟩ <;> rw [mem_midTags] <;> simp +decide

/-- C2 witness: at `total = 8`, the tag `mmid1` fires exactly at step
`1 = 8 / 8` and does fire there. -/
theorem C2_witness :
    ("mmid1" ∈ midTags 1 8 ↔ 1 = 8 / 8) ∧ "mmid1" ∈ midTags 1 8 :=
  ⟨(C2_tagAssignment 1 8).1, by decide⟩

/-! Claim C3. -/

theorem saveDue_fracSteps (s total : Nat) :
    saveDue s total = true ↔ s ∈ fracSteps total ∨ s = total := by
  rw [saveDue, Bool.or_eq_true, Bool.not_eq_true', beq_iff_eq]
  have hmem : (midTags s total).isEmpty = false ↔ s ∈ fracSteps total := by
    rw [List.isEmpty_eq_false_iff_exists_mem]
    constructor
    · rintro ⟨t, ht⟩
      rw [mem_midTags] at ht
      simp only [fracSteps, List.mem_cons, List.not_mem_nil, or_false]
      tauto
    · intro hs
      simp only [fracSteps, List.mem_cons, List.not_mem_nil, or_false] at hs
      rcases hs with h | h | h | h | h | h | h
      · exact ⟨"mmid1", (mem_midTags _ _ _).2 (by tauto)⟩
      · exact ⟨"mid1", (mem_midTags _ _ _).2 (by tauto)⟩
      · exact ⟨"mmid2", (mem_midTags _ _ _).2 (by tauto)⟩
      · exact ⟨"mid2", (mem_midTags _ _ _).2 (by tauto)⟩
      · exact ⟨"mmid3", (mem_midTags _ _ _).2 (by tauto)⟩
      · exact ⟨"mid3", (mem_midTags _ _ _).2 (by tauto)⟩
      · exact ⟨"mend", (mem_midTags _ _ _).2 (by tauto)⟩
  rw [hmem]

theorem filterMap_ite_length {β : Type} (s : Nat) (l : List (Nat × β)) :
    (l.filterMap (fun p => if s = p.1 then some p.2 else none)).length =
      (l.map Prod.fst).count s := by
  induction l with
  | nil => rfl
  | cons p ps ih =>
    rw [List.filterMap_cons, List.map_cons, List.count_cons]
    by_cases h : s = p.1
    · rw [if_pos h, List.length_cons, ih]
      have hb : (p.1 == s) = true := beq_iff_eq.2 h.symm
      rw [hb]
      simp
    · rw [if_neg h, ih]
      have hb : (p.1 == s) = false := by
        simp
        exact fun hh => h hh.symm
      rw [hb]
      simp

theorem midTags_length_count (s total : Nat) :
    (midTags s total).length = (fracSteps total).count s := by
  rw [midTags, filterMap_ite_length]
  simp only [schedulePairs, fracSteps, List.map_cons, List.map_nil,
    List.count_cons, List.count_nil, beq_iff_eq]
  split_ifs <;> omega

/-- C3: within an epoch of `total` steps a checkpoint save is due at the
1-based step `s` iff `s` equals `floor(total * f)` for one of the seven
fractions, or `s` is the final step, and at no other step; when several
fractions floor to the same step, that many tagged checkpoints are written
there (one per fraction); and `total = 100` yields exactly the due steps
12, 25, 37, 50, 62, 75, 87, 100. -/
theorem C3_checkpointSchedule :
    (∀ s total : Nat, 1 ≤ s → s ≤ total →
      (saveDue s total = true ↔ s ∈ fracSteps total ∨ s = total)) ∧
    (∀ s total : Nat, (midTags s total).length = (fracSteps total).count s) ∧
    (List.range 101).filter (fun s => saveDue s 100) =
      [12, 25, 37, 50, 62, 75, 87, 100] := by
  refine ⟨fun s total _ _ => saveDue_fracSteps s total,
    fun s total => midTags_length_count s total, by decide⟩

/-- C3 witness: at `total = 100`, step 12 is due because `12 = floor(100/8)`. -/
theorem C3_witness :
    (saveDue 12 100 = true ↔ 12 ∈ fracSteps 100 ∨ 12 = 100) ∧
    saveDue 12 100 = true :=
  ⟨C3_checkpointSchedule.1 12 100 (by decide) (by decide), by decide⟩

/-! Claim C4. -/

/-- C4: each step's scalar loss is divided by `gradient_accumulation_steps`
before the backward pass; exactly on steps whose 0-based index is divisible
by `gradient_accumulation_steps` the optimizer is stepped, the scheduler
(when present) is stepped, and all gradients are zeroed, with the gradient
norm clipped beforehand if and only if `clip_grad_norm > 0`; no optimizer or
scheduler step occurs on any other step. -/
theorem C4_stepControl (g : Nat) (clip scalarLoss : ℚ) (hasSched : Bool)
    (i : Nat) :
    ((trainStepControl g clip hasSched i scalarLoss).backwardLoss =
      scalarLoss / (g : ℚ)) ∧
    ((trainStepControl g clip hasSched i scalarLoss).optimStepped = true ↔
      i % g = 0) ∧
    ((trainStepControl g clip hasSched i scalarLoss).schedStepped = true ↔
      i % g = 0 ∧ hasSched = true) ∧
    ((trainStepControl g clip hasSched i scalarLoss).gradsZeroed = true ↔
      i % g = 0) ∧
    ((trainStepControl g clip hasSched i scalarLoss).clipped = true ↔
      i % g = 0 ∧ 0 < clip) := by
  by_cases h : i % g = 0 <;> simp [trainStepControl, h]

/-! Claim C7. -/

theorem string_append_assoc (a b c : String) : a ++ b ++ c = a ++ (b ++ c) := by
  apply String.ext
  simp [data_app]

theorem runSlots_ok_iff (available ps : List String) :
    runSlots available ps = Except.ok () ↔
      ∀ p ∈ ps, available.contains p = true := by
  induction ps with
  | nil => simp [runSlots]
  | cons p ps ih =>
    by_cases h : p ∈ available <;>
      simp [runSlots, load_checkpoint, h, ih]

/-- C7: `Trainer.test` visits exactly `4 * epoch_count` checkpoint slots in
deterministic order; slot `i` (0-based) loads the checkpoint of epoch
`i / 4 + 1` with phase tag `mid1`, `mid2`, `mid3`, or `end` according to
`(i + 1) % 4` being 1, 2, 3, or 0, under the exact filename
`flan_pubmed_<epoch>_<lr>_8_<split>_<tag>.pth`; and the run succeeds iff
every slot's file exists — a missing checkpoint file is fatal, not
skipped. -/
theorem C7_testSlots (E : Nat) (lr train : String) (available : List String) :
    (testSlotPaths E lr train).length = 4 * E ∧
    testSlotPaths E lr train = (List.range (4 * E)).map (fun i =>
      "flan_pubmed_" ++ toString (i / 4 + 1) ++ "_" ++ lr ++ "_8_" ++ train ++
        "_" ++ (if (i + 1) % 4 = 1 then "mid1"
          else if (i + 1) % 4 = 2 then "mid2"
          else if (i + 1) % 4 = 3 then "mid3" else "end") ++ ".pth") ∧
    (testRun E lr train available = Except.ok () ↔
      ∀ p ∈ testSlotPaths E lr train, available.contains p = true) := by
  refine ⟨by simp [testSlotPaths], ?_, runSlots_ok_iff _ _⟩
  apply List.map_congr_left
  intro i _
  by_cases h1 : (i + 1) % 4 = 1 <;> by_cases h2 : (i + 1) % 4 = 2 <;>
    by_cases h3 : (i + 1) % 4 = 3 <;>
    simp only [testCkptPath, h1, h2, h3, if_true, if_false,
      string_append_assoc] <;>
    simp [show ("_" : String) ++ ("mid1" ++ ".pth") = "_mid1.pth" from rfl,
      show ("_" : String) ++ ("mid2" ++ ".pth") = "_mid2.pth" from rfl,
      show ("_" : String) ++ ("mid3" ++ ".pth") = "_mid3.pth" from rfl,
      show ("_" : String) ++ ("end" ++ ".pth") = "_end.pth" from rfl]

/-- C7 witness: with one epoch, the run loads exactly the four files
`flan_pubmed_1_<lr>_8_PubMed_{mid1,mid2,mid3,end}.pth` and succeeds when all
four are on disk, while a disk holding only the first file makes the run
fail. -/
theorem C7_witness :
    testRun 1 "0.0001" "PubMed"
      ["flan_pubmed_1_0.0001_8_PubMed_mid1.pth",
       "flan_pubmed_1_0.0001_8_PubMed_mid2.pth",
       "flan_pubmed_1_0.0001_8_PubMed_mid3.pth",
       "flan_pubmed_1_0.0001_8_PubMed_end.pth"] = Except.ok () ∧
    testRun 1 "0.0001" "PubMed"
      ["flan_pubmed_1_0.0001_8_PubMed_mid1.pth"] ≠ Except.ok () := by
  constructor
  · exact (C7_testSlots 1 "0.0001" "PubMed" _).2.2.2 (by decide)
  · intro hok
    have h := (C7_testSlots 1 "0.0001" "PubMed"
      ["flan_pubmed_1_0.0001_8_PubMed_mid1.pth"]).2.2.1 hok
      "flan_pubmed_1_0.0001_8_PubMed_mid2.pth" (by decide)
    exact absurd h (by decide)

/-- C4 witness: with accumulation factor 4, at 0-based step 8 the optimizer
steps and the backward loss is the scalar loss divided by 4, while at step 9
nothing steps. -/
theorem C4_witness :
    ((trainStepControl 4 1 true 8 6).optimStepped = true ↔ 8 % 4 = 0) ∧
    (trainStepControl 4 1 true 8 6).backwardLoss = 6 / ((4 : Nat) : ℚ) ∧
    (trainStepControl 4 1 true 9 6).optimStepped = false :=
  ⟨(C4_stepControl 4 1 6 true 8).2.1, (C4_stepControl 4 1 6 true 8).1, rfl⟩

/-! Claim C5. -/

theorem masked_sum (losses : List ℚ) (labels : List Int)
    (h : losses.length = labels.length) :
    ((losses.zip (lmMask labels)).map (fun p => p.1 * p.2)).sum =
      ((((losses.zip labels).filter (fun p => p.2 != -100)).map Prod.fst).sum) := by
  induction losses generalizing labels with
  | nil => simp
  | cons a as ih =>
    cases labels with
    | nil => simp at h
    | cons t ts =>
      have h' : as.length = ts.length := by simpa using h
      have ihh := ih ts h'
      simp only [lmMask] at ihh ⊢
      by_cases ht : t = -100 <;> simp [List.filter_cons, ht, ihh]

theorem mask_count (losses : List ℚ) (labels : List Int)
    (h : losses.length = labels.length) :
    (lmMask labels).sum =
      ((((losses.zip labels).filter (fun p => p.2 != -100)).length : ℚ)) := by
  induction losses generalizing labels with
  | nil =>
    cases labels with
    | nil => simp [lmMask]
    | cons t ts => simp at h
  | cons a as ih =>
    cases labels with
    | nil => simp at h
    | cons t ts =>
      have h' : as.length = ts.length := by simpa using h
      by_cases ht : t = -100 <;>
        simp [lmMask, List.filter_cons, ht, ← ih ts h', lmMask, add_comm]

/-- C5: the per-example loss computed at lines 147-154 equals the sum of the
per-position losses at positions whose label differs from -100, divided by
the number of such positions with the divisor floored at 1, so an example
with zero valid label positions incurs no division by zero. -/
theorem C5_perExampleLoss (losses : List ℚ) (labels : List Int)
    (h : losses.length = labels.length) :
    perExampleLoss losses labels = perExampleLossSpec losses labels := by
  unfold perExampleLoss perExampleLossSpec
  rw [masked_sum losses labels h, mask_count losses labels h]

/-- C5 witness: for the label sequence `[7, -100, 9]` the per-example loss of
`[1, 5, 3]` is the mean of the losses at positions 0 and 2 only, namely 2;
and a row with no valid position divides by 1, not 0. -/
theorem C5_witness :
    perExampleLoss [1, 5, 3] [7, -100, 9] =
      perExampleLossSpec [1, 5, 3] [7, -100, 9] ∧
    perExampleLoss [1, 5, 3] [7, -100, 9] = 2 ∧
    perExampleLoss [4, 4] [-100, -100] = 0 := by
  refine ⟨C5_perExampleLoss _ _ (by decide), ?_, ?_⟩ <;>
    norm_num [perExampleLoss, lmMask]

/-! Claim C9. -/

/-- C9: the counters initialised by `evaluate_epoch` are exactly one per
template id in the classification task list, each carrying the fixed category
suffix `-transductive`, and present only when the training split is `PubMed`;
scoring a matching classification example whose counter key is absent raises
a key-lookup error, and such an error terminates the scoring pass instead of
silently creating a new counter. -/
theorem C9_counterKeys :
    (∀ (tss : List (List String)) (split : String),
      keysOf (initACC [("classification", tss)] split) =
        if split = "PubMed" then
          tss.flatten.map (fun t => t ++ "-transductive")
        else []) ∧
    (∀ acc ex, ex.task = "classification" → suffixOk ex.temp_id = true →
      pyLower ex.predicted = ex.target_text →
      findVal acc (ex.temp_id ++ "-" ++ ex.cate) = none →
      scoreExample acc ex = Except.error (ex.temp_id ++ "-" ++ ex.cate)) ∧
    (∀ acc ex rest k, scoreExample acc ex = Except.error k →
      scorePass acc (ex :: rest) = Except.error k) := by
  refine ⟨?_, ?_, ?_⟩
  · intro tss split
    by_cases h : split = "PubMed"
    · simp [initACC, keysOf, h, List.map_map, Function.comp_def,
        string_append_assoc,
        show ("-" : String) ++ "transductive" = "-transductive" from rfl]
    · simp [initACC, keysOf, h]
  · intro acc ex h1 h2 h3 h4
    simp [scoreExample, h1, h2, h3, bumpKey, h4]
  · intro acc ex rest k h
    simp [scorePass, h]

/-- C9 witness: against counters initialised for templates 6-6-6-6 and
6-6-6-7 only, a matching example with template id 2-1-2-2 hits a missing key
and the pass aborts with that key. -/
theorem C9_witness :
    scorePass [("6-6-6-6-transductive", 0), ("6-6-6-7-transductive", 0)]
      [{ task := "classification", temp_id := "2-1-2-2",
         cate := "transductive", target_text := "yes", predicted := "Yes" }] =
      Except.error "2-1-2-2-transductive" := by
  have h := C9_counterKeys.2.1
    [("6-6-6-6-transductive", 0), ("6-6-6-7-transductive", 0)]
    { task := "classification", temp_id := "2-1-2-2", cate := "transductive",
      target_text := "yes", predicted := "Yes" }
    rfl (by decide) (by decide) (by decide)
  exact C9_counterKeys.2.2 _ _ [] _ h

/-! Claim C10. -/

theorem mergeStep_cons (er : List (String × ℚ)) (kv : String × PyVal)
    (rest : List (String × PyVal)) :
    mergeStep er (kv :: rest) =
      mergeStep (match findVal er kv.1 with
        | some _ =>
          match valToAdd kv.2 with
          | some d => addAt er kv.1 d
          | none => er
        | none => er) rest := rfl

theorem keysOf_addAt (m : List (String × ℚ)) (k : String) (d : ℚ) :
    keysOf (addAt m k d) = keysOf m := keysOf_adjustKey m k _

theorem keysOf_mergeStep (er : List (String × ℚ))
    (res : List (String × PyVal)) :
    keysOf (mergeStep er res) = keysOf er := by
  induction res generalizing er with
  | nil => rfl
  | cons kv rest ih =>
    rw [mergeStep_cons]
    cases h1 : findVal er kv.1 with
    | none => simp only [ih]
    | some w =>
      cases h2 : valToAdd kv.2 with
      | none => simp only [ih]
      | some d => simp only [ih, keysOf_addAt]

/-- C10: the key set of `epoch_results` is fixed at epoch start — one value
entry and one `_count` entry per configured loss name — and preserved by
every per-step merge; a result entry whose key is not already present
(including the weighted `loss` scalar and any per-task loss outside the
configured list) is silently discarded; and only int and tensor values are
ever added — a plain float entry changes nothing even at an existing key. -/
theorem C10_fixedKeys :
    (∀ lossNames : List String, keysOf (initEpochResults lossNames) =
      lossNames.flatMap (fun n => [n, n ++ "_count"])) ∧
    (∀ er res, keysOf (mergeStep er res) = keysOf er) ∧
    (∀ er k v, findVal er k = none → mergeStep er [(k, v)] = er) ∧
    (∀ er k x, mergeStep er [(k, PyVal.float x)] = er) := by
  refine ⟨?_, keysOf_mergeStep, ?_, ?_⟩
  · intro L
    induction L with
    | nil => rfl
    | cons n ns ih =>
      simp only [initEpochResults, List.flatMap_cons] at ih ⊢
      simp [keysOf] at ih ⊢
      exact ih
  · intro er k v h
    show mergeStep er [(k, v)] = er
    rw [mergeStep_cons, h]
    rfl
  · intro er k x
    rw [mergeStep_cons]
    cases h : findVal er k <;> rfl

/-- C10 witness: a step entry at a key outside the fixed key set (here the
weighted `loss` scalar) is discarded by the merge. -/
theorem C10_witness :
    mergeStep [("total_loss", 5), ("total_loss_count", 2)]
      [("loss", PyVal.tensor 9)] =
      [("total_loss", 5), ("total_loss_count", 2)] :=
  C10_fixedKeys.2.2.1 _ "loss" (PyVal.tensor 9) rfl

/-! Claim C6. -/

theorem getLast_data_append_count (s : String) :
    (s ++ "_count").data.getLast? = some 't' := by
  rw [data_app, List.getLast?_append]
  rfl

theorem getLast_data_append_loss (s : String) :
    (s ++ "_loss").data.getLast? = some 's' := by
  rw [data_app, List.getLast?_append]
  rfl

theorem append_count_ne_append_loss (a b : String) :
    a ++ "_count" ≠ b ++ "_loss" := by
  intro h
  have h2 : (a ++ "_count").data.getLast? = (b ++ "_loss").data.getLast? := by
    rw [h]
  rw [getLast_data_append_count, getLast_data_append_loss] at h2
  exact absurd h2 (by decide)

theorem append_count_ne_loss (n : String) : n ++ "_count" ≠ "loss" := by
  intro h
  have h2 : (n ++ "_count").data.length = ("loss" : String).data.length := by
    rw [h]
  rw [data_app, List.length_append,
    show ("_count" : String).data.length = 6 from rfl,
    show ("loss" : String).data.length = 4 from rfl] at h2
  omega

theorem append_count_ne_total_loss (n : String) :
    n ++ "_count" ≠ "total_loss" := by
  intro h
  exact append_count_ne_append_loss n "total" (by rw [h]; rfl)

theorem stepResults_countSafe (tasks : List String) (batch : List Ex) :
    ∀ kv ∈ stepResults tasks batch, ∀ n : String, kv.1 = n ++ "_count" →
      ∀ d : ℚ, valToAdd kv.2 = some d → 0 ≤ d := by
  intro kv hkv n hk d hd
  rw [stepResults] at hkv
  rcases List.mem_cons.1 hkv with rfl | hkv2
  · exact absurd hk.symm (append_count_ne_loss n)
  rcases List.mem_cons.1 hkv2 with rfl | hkv3
  · exact absurd hk.symm (append_count_ne_total_loss n)
  rcases List.mem_cons.1 hkv3 with rfl | hkv4
  · simp only [valToAdd] at hd
    injection hd with hd2
    rw [← hd2]
    positivity
  · rcases List.mem_flatMap.1 hkv4 with ⟨t, _, hkv5⟩
    by_cases hc : 0 < (tallyTask batch t).2
    · rw [if_pos hc] at hkv5
      rcases List.mem_cons.1 hkv5 with rfl | hkv6
      · exact absurd hk.symm (append_count_ne_append_loss n t)
      rcases List.mem_cons.1 hkv6 with rfl | hkv7
      · simp only [valToAdd] at hd
        injection hd with hd2
        rw [← hd2]
        positivity
      · simp at hkv7
    · rw [if_neg hc] at hkv5
      simp at hkv5

theorem mergeStep_countsNonneg :
    ∀ (res : List (String × PyVal)) (er : List (String × ℚ)),
      (∀ n v, findVal er (n ++ "_count") = some v → 0 ≤ v) →
      (∀ kv ∈ res, ∀ n : String, kv.1 = n ++ "_count" →
        ∀ d : ℚ, valToAdd kv.2 = some d → 0 ≤ d) →
      ∀ n v, findVal (mergeStep er res) (n ++ "_count") = some v → 0 ≤ v := by
  intro res
  induction res with
  | nil => intro er her _; exact her
  | cons kv rest ih =>
    intro er her hres
    rw [mergeStep_cons]
    refine ih _ ?_ (fun kv2 h2 => hres kv2 (List.mem_cons_of_mem _ h2))
    cases h1 : findVal er kv.1 with
    | none => exact her
    | some w =>
      cases h2 : valToAdd kv.2 with
      | none => exact her
      | some d =>
        intro n v hv
        simp only [addAt] at hv
        rw [findVal_adjustKey] at hv
        by_cases hkey : n ++ "_count" = kv.1
        · rw [if_pos hkey] at hv
          cases h3 : findVal er (n ++ "_count") with
          | none => rw [h3] at hv; exact absurd hv (by simp)
          | some w2 =>
            rw [h3] at hv
            simp only [Option.map_some'] at hv
            injection hv with hv2
            have hd : 0 ≤ d :=
              hres kv (List.mem_cons_self _ _) n hkey.symm d h2
            have hw2 := her n w2 h3
            rw [← hv2]
            linarith
        · rw [if_neg hkey] at hv
          exact her n v hv

theorem initEpochResults_mem (L : List String) (kv : String × ℚ)
    (h : kv ∈ initEpochResults L) : kv.2 = 0 := by
  simp only [initEpochResults, List.mem_flatMap, List.mem_cons,
    List.not_mem_nil, or_false] at h
  obtain ⟨n, _, h | h⟩ := h <;> rw [h]

theorem foldl_mergeStep_countsNonneg (tasks : List String)
    (batches : List (List Ex)) :
    ∀ er : List (String × ℚ),
      (∀ n v, findVal er (n ++ "_count") = some v → 0 ≤ v) →
      ∀ n v, findVal (batches.foldl
          (fun er2 b => mergeStep er2 (stepResults tasks b)) er)
        (n ++ "_count") = some v → 0 ≤ v := by
  induction batches with
  | nil => intro er her; exact her
  | cons b bs ih =>
    intro er her
    rw [List.foldl_cons]
    exact ih _ (mergeStep_countsNonneg _ er her (stepResults_countSafe tasks b))

theorem runEpoch_countsNonneg (L tasks : List String)
    (batches : List (List Ex)) :
    ∀ n v, findVal (runEpoch L tasks batches) (n ++ "_count") = some v →
      0 ≤ v := by
  rw [runEpoch]
  apply foldl_mergeStep_countsNonneg
  intro n v hv
  have h0 := initEpochResults_mem L _ (findVal_some_mem hv)
  exact le_of_eq h0.symm

theorem pyInt_pos (c : ℚ) (h : 0 < pyInt c) : 0 < c := by
  rw [← Rat.num_pos]
  by_contra hc
  push_neg at hc
  rw [pyInt] at h
  have h3 : (0:ℤ) ≤ -c.num := by omega
  have h4 : (0:ℤ) ≤ (c.den : Int) := by positivity
  have h5 := Int.tdiv_nonneg h3 h4
  rw [Int.neg_tdiv] at h5
  omega

theorem reported_count_pos (res : List (String × ℚ)) (n : String) (a : ℚ)
    (h : (n, a) ∈ reportedAverages res) :
    ∃ c, findVal res (n ++ "_count") = some c ∧ 0 < c := by
  simp only [reportedAverages, List.mem_filterMap] at h
  obtain ⟨kv, _, hsome⟩ := h
  by_cases hl : last4 kv.1 = ("loss" : String).data
  · rw [if_pos hl] at hsome
    cases hc : findVal res (kv.1 ++ "_count") with
    | none => rw [hc] at hsome; exact absurd hsome (by simp)
    | some c =>
      rw [hc] at hsome
      dsimp only [] at hsome
      by_cases hp : 0 < pyInt c
      · rw [if_pos hp] at hsome
        injection hsome with h2
        have h3 : kv.1 = n := congrArg Prod.fst h2
        refine ⟨c, ?_, pyInt_pos c hp⟩
        rw [← h3]
        exact hc
      · rw [if_neg hp] at hsome
        exact absurd hsome (by simp)
  · rw [if_neg hl] at hsome
    exact absurd hsome (by simp)

/-- C6: at the end of every training epoch, every count entry of
`epoch_results` is non-negative; per-step results are merged only by
summation — the merged value at an existing key is the old value plus the
step's delta, never an overwrite; and a per-metric loss average is reported
only when that metric's count is positive. -/
theorem C6_epochInvariant :
    (∀ (L tasks : List String) (batches : List (List Ex)) (n : String)
        (v : ℚ),
      findVal (runEpoch L tasks batches) (n ++ "_count") = some v → 0 ≤ v) ∧
    (∀ (er : List (String × ℚ)) (k : String) (pv : PyVal) (d w : ℚ),
      valToAdd pv = some d → findVal er k = some w →
      findVal (mergeStep er [(k, pv)]) k = some (w + d)) ∧
    (∀ (res : List (String × ℚ)) (n : String) (a : ℚ),
      (n, a) ∈ reportedAverages res →
      ∃ c, findVal res (n ++ "_count") = some c ∧ 0 < c) := by
  refine ⟨fun L tasks batches => runEpoch_countsNonneg L tasks batches,
    ?_, reported_count_pos⟩
  intro er k pv d w h1 h2
  rw [mergeStep_cons, h2]
  dsimp only []
  rw [h1]
  show findVal (addAt er k d) k = some (w + d)
  simp only [addAt]
  rw [findVal_adjustKey, if_pos rfl, h2]
  rfl

/-- C6 witness: merging a step count of 3 into an existing count of 2 yields
5 — a sum, not an overwrite; and the per-metric report of a results dict
with a zero count omits that metric. -/
theorem C6_witness :
    findVal (mergeStep [("total_loss", 5), ("total_loss_count", 2)]
      [("total_loss_count", PyVal.int 3)]) "total_loss_count" =
      some (2 + 3) :=
  C6_epochInvariant.2.1 [("total_loss", 5), ("total_loss_count", 2)]
    "total_loss_count" (PyVal.int 3) 3 2 (by norm_num [valToAdd]) rfl

/-! Claim C8. -/

theorem findVal_cons {α : Type} (kv : String × α) (rest : List (String × α))
    (k : String) :
    findVal (kv :: rest) k = if kv.1 = k then some kv.2 else findVal rest k :=
  rfl

theorem append_cancel_str (a b c : String) (h : a ++ c = b ++ c) : a = b := by
  have h2 : a.data ++ c.data = b.data ++ c.data := by
    rw [← data_app, ← data_app, h]
  exact String.ext (List.append_cancel_right h2)

theorem getLast_data_append_losscount (s : String) :
    (s ++ "_loss_count").data.getLast? = some 't' := by
  rw [data_app, List.getLast?_append]
  rfl

theorem loss_ne_append_loss (t : String) :
    ("loss" : String) ≠ t ++ "_loss" := by
  intro h
  have h2 : (t ++ "_loss").data.length = ("loss" : String).data.length := by
    rw [h]
  rw [data_app, List.length_append,
    show ("_loss" : String).data.length = 5 from rfl,
    show ("loss" : String).data.length = 4 from rfl] at h2
  omega

theorem loss_ne_append_losscount (t : String) :
    ("loss" : String) ≠ t ++ "_loss_count" := by
  intro h
  have h2 : (t ++ "_loss_count").data.length =
      ("loss" : String).data.length := by
    rw [h]
  rw [data_app, List.length_append,
    show ("_loss_count" : String).data.length = 11 from rfl,
    show ("loss" : String).data.length = 4 from rfl] at h2
  omega

theorem total_loss_ne_append_loss (t : String) (htt : t ≠ "total") :
    ("total_loss" : String) ≠ t ++ "_loss" := by
  intro h
  apply htt
  apply append_cancel_str t "total" "_loss"
  rw [← h]
  rfl

theorem total_loss_ne_append_losscount (t : String) :
    ("total_loss" : String) ≠ t ++ "_loss_count" := by
  intro h
  have h2 : ("total_loss" : String).data.getLast? =
      (t ++ "_loss_count").data.getLast? := by rw [h]
  rw [getLast_data_append_losscount] at h2
  exact absurd h2 (by decide)

theorem total_loss_count_ne_append_loss (t : String) :
    ("total_loss_count" : String) ≠ t ++ "_loss" := by
  intro h
  have h2 : ("total_loss_count" : String).data.getLast? =
      (t ++ "_loss").data.getLast? := by rw [h]
  rw [getLast_data_append_loss] at h2
  exact absurd h2 (by decide)

theorem total_loss_count_ne_append_losscount (t : String) (htt : t ≠ "total") :
    ("total_loss_count" : String) ≠ t ++ "_loss_count" := by
  intro h
  apply htt
  apply append_cancel_str t "total" "_loss_count"
  rw [← h]
  rfl

theorem append_losscount_ne_append_loss (a b : String) :
    a ++ "_loss_count" ≠ b ++ "_loss" := by
  intro h
  have h2 : (a ++ "_loss_count").data.getLast? =
      (b ++ "_loss").data.getLast? := by rw [h]
  rw [getLast_data_append_losscount, getLast_data_append_loss] at h2
  exact absurd h2 (by decide)

theorem tallyTask_eq (batch : List Ex) (t : String) :
    tallyTask batch t =
      (((batch.filter (fun e => e.task == t)).map (fun e => e.l)).sum,
        (batch.filter (fun e => e.task == t)).length) := by
  suffices h : ∀ p : ℚ × Nat,
      batch.foldl (fun acc e =>
        if e.task = t then (acc.1 + e.l, acc.2 + 1) else acc) p =
      (p.1 + ((batch.filter (fun e => e.task == t)).map (fun e => e.l)).sum,
        p.2 + (batch.filter (fun e => e.task == t)).length) by
    rw [tallyTask, h (0, 0)]
    simp
  induction batch with
  | nil => intro p; simp
  | cons e es ih =>
    intro p
    rw [List.foldl_cons, List.filter_cons]
    by_cases h : e.task = t
    · have hb : (e.task == t) = true := beq_iff_eq.2 h
      rw [if_pos h, ih, hb]
      simp only [if_true, List.map_cons, List.sum_cons, List.length_cons,
        Prod.mk.injEq]
      constructor
      · ring
      · omega
    · have hb : (e.task == t) = false := by
        simp only [beq_eq_false_iff_ne, ne_eq]
        exact h
      rw [if_neg h, ih, hb]
      simp

theorem tallyTask_pos_iff (batch : List Ex) (t : String) :
    0 < (tallyTask batch t).2 ↔ ∃ e ∈ batch, e.task = t := by
  rw [tallyTask_eq]
  show 0 < (batch.filter (fun e => e.task == t)).length ↔ _
  rw [← List.countP_eq_length_filter, List.countP_pos_iff]
  simp

theorem findVal_taskEntries_loss (batch : List Ex) (ts : List String)
    (t : String) :
    findVal (ts.flatMap (fun t2 =>
      if 0 < (tallyTask batch t2).2 then
        [(t2 ++ "_loss", PyVal.tensor (tallyTask batch t2).1),
         (t2 ++ "_loss_count", PyVal.int ((tallyTask batch t2).2 : Int))]
      else [])) (t ++ "_loss") =
      if t ∈ ts ∧ 0 < (tallyTask batch t).2 then
        some (PyVal.tensor (tallyTask batch t).1) else none := by
  induction ts with
  | nil => simp [findVal]
  | cons t2 rest ih =>
    rw [List.flatMap_cons]
    have hiff : (t ∈ t2 :: rest ∧ 0 < (tallyTask batch t).2) ↔
        (t = t2 ∨ t ∈ rest) ∧ 0 < (tallyTask batch t).2 := by
      rw [List.mem_cons]
    by_cases he : t2 = t
    · subst he
      by_cases hc : 0 < (tallyTask batch t2).2
      · rw [if_pos hc, List.cons_append, findVal_cons, if_pos rfl,
          if_pos ⟨List.mem_cons_self _ _, hc⟩]
      · rw [if_neg hc, List.nil_append, ih, if_neg (fun hh => hc hh.2),
          if_neg (fun hh => hc hh.2)]
    · have hmem : (t ∈ t2 :: rest ∧ 0 < (tallyTask batch t).2) ↔
          (t ∈ rest ∧ 0 < (tallyTask batch t).2) := by
        rw [hiff]
        constructor
        · rintro ⟨rfl | hm, hcc⟩
          · exact absurd rfl he
          · exact ⟨hm, hcc⟩
        · rintro ⟨hm, hcc⟩
          exact ⟨Or.inr hm, hcc⟩
      rw [if_congr hmem rfl rfl, ← ih]
      by_cases hc : 0 < (tallyTask batch t2).2
      · rw [if_pos hc, List.cons_append, findVal_cons,
          if_neg (fun hh => he (append_cancel_str t2 t "_loss" hh)),
          List.cons_append, findVal_cons,
          if_neg (append_losscount_ne_append_loss t2 t), List.nil_append]
      · rw [if_neg hc, List.nil_append]

theorem findVal_taskEntries_losscount (batch : List Ex) (ts : List String)
    (t : String) :
    findVal (ts.flatMap (fun t2 =>
      if 0 < (tallyTask batch t2).2 then
        [(t2 ++ "_loss", PyVal.tensor (tallyTask batch t2).1),
         (t2 ++ "_loss_count", PyVal.int ((tallyTask batch t2).2 : Int))]
      else [])) (t ++ "_loss_count") =
      if t ∈ ts ∧ 0 < (tallyTask batch t).2 then
        some (PyVal.int ((tallyTask batch t).2 : Int)) else none := by
  induction ts with
  | nil => simp [findVal]
  | cons t2 rest ih =>
    rw [List.flatMap_cons]
    by_cases he : t2 = t
    · subst he
      by_cases hc : 0 < (tallyTask batch t2).2
      · rw [if_pos hc, List.cons_append, findVal_cons,
          if_neg (fun hh => append_losscount_ne_append_loss t2 t2 hh.symm),
          List.cons_append, findVal_cons, if_pos rfl,
          if_pos ⟨List.mem_cons_self _ _, hc⟩]
      · rw [if_neg hc, List.nil_append, ih, if_neg (fun hh => hc hh.2),
          if_neg (fun hh => hc hh.2)]
    · have hmem : (t ∈ t2 :: rest ∧ 0 < (tallyTask batch t).2) ↔
          (t ∈ rest ∧ 0 < (tallyTask batch t).2) := by
        rw [List.mem_cons]
        constructor
        · rintro ⟨rfl | hm, hcc⟩
          · exact absurd rfl he
          · exact ⟨hm, hcc⟩
        · rintro ⟨hm, hcc⟩
          exact ⟨Or.inr hm, hcc⟩
      rw [if_congr hmem rfl rfl, ← ih]
      by_cases hc : 0 < (tallyTask batch t2).2
      · rw [if_pos hc, List.cons_append, findVal_cons,
          if_neg (fun hh => append_losscount_ne_append_loss t t2 hh.symm),
          List.cons_append, findVal_cons,
          if_neg (fun hh =>
            he (append_cancel_str t2 t "_loss_count" hh)),
          List.nil_append]
      · rw [if_neg hc, List.nil_append]

theorem findVal_stepResults_taskLoss (tasks : List String) (batch : List Ex)
    (t : String) (ht : t ∈ tasks) (htot : "total" ∉ tasks) :
    findVal (stepResults tasks batch) (t ++ "_loss") =
      if 0 < (tallyTask batch t).2 then
        some (PyVal.tensor (tallyTask batch t).1) else none := by
  have htt : t ≠ "total" := fun hh => htot (hh ▸ ht)
  rw [stepResults, findVal_cons, if_neg (loss_ne_append_loss t), findVal_cons,
    if_neg (total_loss_ne_append_loss t htt), findVal_cons,
    if_neg (total_loss_count_ne_append_loss t), findVal_taskEntries_loss]
  by_cases hc : 0 < (tallyTask batch t).2
  · rw [if_pos ⟨ht, hc⟩, if_pos hc]
  · rw [if_neg (fun hh => hc hh.2), if_neg hc]

theorem findVal_stepResults_taskLossCount (tasks : List String)
    (batch : List Ex) (t : String) (ht : t ∈ tasks)
    (htot : "total" ∉ tasks) :
    findVal (stepResults tasks batch) (t ++ "_loss_count") =
      if 0 < (tallyTask batch t).2 then
        some (PyVal.int ((tallyTask batch t).2 : Int)) else none := by
  have htt : t ≠ "total" := fun hh => htot (hh ▸ ht)
  rw [stepResults, findVal_cons, if_neg (loss_ne_append_losscount t),
    findVal_cons, if_neg (total_loss_ne_append_losscount t), findVal_cons,
    if_neg (total_loss_count_ne_append_losscount t htt),
    findVal_taskEntries_losscount]
  by_cases hc : 0 < (tallyTask batch t).2
  · rw [if_pos ⟨ht, hc⟩, if_pos hc]
  · rw [if_neg (fun hh => hc hh.2), if_neg hc]

/-- C8: the scalar loss used for the backward pass equals the mean over the
batch of per-example loss times that example's loss weight; and for each
configured task tag, an unweighted per-task loss sum and example count are
recorded if and only if at least one example of that task is present in the
batch — tasks absent from the batch contribute no entries. -/
theorem C8_batchLoss (tasks : List String) (batch : List Ex)
    (_hne : 0 < batch.length) (htot : "total" ∉ tasks) :
    findVal (stepResults tasks batch) "loss" =
      some (PyVal.tensor ((batch.map (fun e => e.l * e.w)).sum /
        (batch.length : ℚ))) ∧
    ∀ t ∈ tasks,
      (findVal (stepResults tasks batch) (t ++ "_loss") =
        if 0 < (tallyTask batch t).2 then
          some (PyVal.tensor (tallyTask batch t).1) else none) ∧
      (findVal (stepResults tasks batch) (t ++ "_loss_count") =
        if 0 < (tallyTask batch t).2 then
          some (PyVal.int ((tallyTask batch t).2 : Int)) else none) ∧
      (0 < (tallyTask batch t).2 ↔ ∃ e ∈ batch, e.task = t) ∧
      (tallyTask batch t).1 =
        ((batch.filter (fun e => e.task == t)).map (fun e => e.l)).sum := by
  refine ⟨rfl, fun t ht =>
    ⟨findVal_stepResults_taskLoss tasks batch t ht htot,
     findVal_stepResults_taskLossCount tasks batch t ht htot,
     tallyTask_pos_iff batch t, by rw [tallyTask_eq]⟩⟩

/-- C8 witness: for a two-example batch of `link` examples with losses 2 and
4 and weights 1 and 3, the weighted scalar loss is `(2*1 + 4*3)/2 = 7`, the
`link` task records sum 6 and count 2, and the absent `classification` task
records no entry. -/
theorem C8_witness :
    findVal (stepResults ["link", "classification"]
      [⟨"link", 2, 1⟩, ⟨"link", 4, 3⟩]) "loss" =
      some (PyVal.tensor 7) ∧
    findVal (stepResults ["link", "classification"]
      [⟨"link", 2, 1⟩, ⟨"link", 4, 3⟩]) "link_loss" =
      some (PyVal.tensor 6) ∧
    findVal (stepResults ["link", "classification"]
      [⟨"link", 2, 1⟩, ⟨"link", 4, 3⟩]) "classification_loss" = none := by
  have hb := C8_batchLoss ["link", "classification"]
    [⟨"link", 2, 1⟩, ⟨"link", 4, 3⟩] (by decide) (by decide)
  refine ⟨?_, ?_, ?_⟩
  · rw [hb.1]
    norm_num
  · have h := (hb.2 "link" (by decide)).1
    rw [show ("link" : String) ++ "_loss" = "link_loss" from rfl] at h
    rw [h]
    norm_num [tallyTask]
  · have h := (hb.2 "classification" (by decide)).1
    rw [show ("classification" : String) ++ "_loss" = "classification_loss"
      from rfl] at h
    rw [h]
    simp +decide [tallyTask]

end Pretrain
